import Mathlib

/-!
Verification of the terminal-markdown rendering engine (`renderer.go` of
go-term-markdown) against its natural-language specification.

The development shallowly embeds the renderer: the AST consumed by the
renderer is a tagged tree (`Node`/`Forest`), the mutable renderer state
(`renderer` struct in Go) is an explicit `RState` record threaded through
`renderNode`/`walkNode`, and Go panics (nil dereferences, pops of an empty
stack, the `shouldCleanText` fall-through panic) are represented by
`Option.none`.  External collaborators from other Go modules
(go-term-text's wrapping and escape-state handling, the table layout
engine's final rendering) are parameters collected in `Collab`, matching
the specification's decision to treat them as interface-only
collaborators.  ANSI color helpers from the repository's colors file and
the heading-numbering engine (both outside the excerpted core) are
modelled from the spec where noted.
-/

namespace TermMarkdown

/-- Go's `unicode.IsSpace`: the Unicode White Space property
(U+0009–U+000D, U+0020, U+0085, U+00A0, U+1680, U+2000–U+200A,
U+2028, U+2029, U+202F, U+205F, U+3000). -/
def goIsSpace (c : Char) : Bool :=
  let n := c.toNat
  (9 ≤ n && n ≤ 13) || n = 32 || n = 0x85 || n = 0xA0 || n = 0x1680 ||
  (0x2000 ≤ n && n ≤ 0x200A) || n = 0x2028 || n = 0x2029 || n = 0x202F ||
  n = 0x205F || n = 0x3000

/-- `strings.TrimLeftFunc(l, unicode.IsSpace)` on a rune list. -/
def trimLeftF (l : List Char) : List Char :=
  l.dropWhile goIsSpace

/-- `strings.TrimRightFunc(l, unicode.IsSpace)` on a rune list. -/
def trimRightF (l : List Char) : List Char :=
  (l.reverse.dropWhile goIsSpace).reverse

/-- `strings.TrimFunc(l, unicode.IsSpace)` on a rune list. -/
def trimF (l : List Char) : List Char :=
  trimLeftF (trimRightF l)

/-- `strings.Split(text, "\n")` on a rune list: split at every newline. -/
def splitOnNl : List Char → List (List Char)
  | [] => [[]]
  | c :: cs =>
    match splitOnNl cs with
    | [] => [[]]
    | h :: t => if c = '\n' then [] :: h :: t else (c :: h) :: t

/-- The trimming loop of `removeLineBreak` (renderer.go:501-510) on the
tail of the fragment list: every interior fragment is trimmed on both
sides, the final fragment (`case len(lines)-1`) only on the left. -/
def trimInner : List (List Char) → List (List Char)
  | [] => []
  | [l] => [trimLeftF l]
  | l :: l' :: ls => trimF l :: trimInner (l' :: ls)

/-- `removeLineBreak` (renderer.go:494-512) on a rune list: split on
newlines; if there are at least two fragments, trim the first on the
right (`case 0`), the last on the left, interior ones on both sides, and
join everything with single spaces. -/
def removeLineBreakL (l : List Char) : List Char :=
  match splitOnNl l with
  | [] => l
  | [_] => l
  | first :: l' :: ls =>
    (List.intercalate [' '] (trimRightF first :: trimInner (l' :: ls)))

/-- `removeLineBreak` (renderer.go:494-512). -/
def removeLineBreak (t : String) : String :=
  String.mk (removeLineBreakL t.data)

/-- The transformation the claim of the spec describes in words (for
comparison with the source's `removeLineBreak`): leading whitespace
stripped from the first fragment, trailing whitespace from the last,
both sides from interior fragments, line breaks collapsed to a space. -/
def removeLineBreakClaimed (t : String) : String :=
  match splitOnNl t.data with
  | [] => t
  | [_] => t
  | first :: l' :: ls =>
    let n := (l' :: ls).length
    String.mk (List.intercalate [' ']
      (trimLeftF first ::
        ((l' :: ls).mapIdx fun i l =>
          if i = n - 1 then trimRightF l else trimF l)))

/-- `strings.Repeat(s, n)` (for the non-negative counts the renderer uses). -/
def srep (s : String) (n : Nat) : String :=
  String.join (List.replicate n s)

/-- `strings.TrimRight(code, "\n")`: drop trailing newline characters. -/
def trimTrailingNl (s : String) : String :=
  String.mk ((s.data.reverse.dropWhile fun c => c = '\n').reverse)

/-- `strings.ReplaceAll(s, "\n", "")`: drop every newline character. -/
def dropNl (s : String) : String :=
  String.mk (s.data.filter fun c => c ≠ '\n')

/-- `strings.TrimSpace`. -/
def goTrimSpace (s : String) : String :=
  String.mk (trimF s.data)

/-- Cell alignments of the table builder (`CellAlignLeft`, … ,
`CellAlignCopyHeader`). -/
inductive CellAlign where
  | left
  | right
  | center
  | copyHeader
deriving DecidableEq, Repr

/-- gomarkdown's `ast.CellAlignFlags` as seen by the `TableCell` case:
no alignment, left, right or center. -/
inductive TableAlign where
  | none
  | left
  | right
  | center
deriving DecidableEq, Repr

/-- gomarkdown's `ast.ListType` bits that the `ListItem` case inspects. -/
structure ListFlags where
  ordered : Bool
  term : Bool
  definition : Bool
deriving DecidableEq, Repr

/-- The per-kind payload of an AST node; one constructor per `*ast.T`
case of `RenderNode`'s type switch. -/
inductive Shape where
  | document
  | blockQuote
  | list
  | listItem (flags : ListFlags)
  | paragraph
  | heading (level : Nat)
  | horizontalRule
  | emph
  | strong
  | del
  | link (dest : String) (title : String)
  | image (dest : String)
  | text (lit : String)
  | htmlBlock (lit : String)
  | codeBlock (lit : String)
  | softbreak
  | hardbreak
  | code (lit : String)
  | htmlSpan (lit : String)
  | table
  | tableCell (isHeader : Bool) (align : TableAlign)
  | tableHeader
  | tableBody
  | tableRow
  | tableFooter
deriving DecidableEq, Repr

mutual
/-- A gomarkdown AST node: its kind-specific payload and its children
(empty for leaf kinds). -/
inductive Node where
  | node (shape : Shape) (children : Forest)
deriving Repr

/-- A list of sibling nodes. -/
inductive Forest where
  | nil
  | cons (head : Node) (tail : Forest)
deriving Repr
end

/-- First node of a sibling list, as `ast.GetFirstChild` /
`GetNextNode` read it. -/
def Forest.head? : Forest → Option Node
  | .nil => none
  | .cons n _ => some n

/-- gomarkdown node kinds that embed `ast.Container` (and therefore
receive an exit visit from `ast.Walk`); the others embed `ast.Leaf`. -/
def Shape.isContainer : Shape → Bool
  | .text _ => false
  | .horizontalRule => false
  | .codeBlock _ => false
  | .htmlBlock _ => false
  | .softbreak => false
  | .hardbreak => false
  | .code _ => false
  | .htmlSpan _ => false
  | _ => true

/-- `node.AsLeaf().Literal` for leaf kinds; `none` models the nil
`AsLeaf()` result of container kinds (dereferencing it panics). -/
def Node.asLeafLiteral : Node → Option String
  | .node sh _ =>
    match sh with
    | .text l => some l
    | .codeBlock l => some l
    | .htmlBlock l => some l
    | .code l => some l
    | .htmlSpan l => some l
    | .horizontalRule => some ""
    | .softbreak => some ""
    | .hardbreak => some ""
    | _ => none

/-- The verdict a single node kind contributes inside
`shouldCleanText`'s loop (renderer.go:514-529): `BlockQuote` stops with
`false`, the cleaning kinds stop with `true`, anything else defers to
the parent. -/
def cleanVerdict : Shape → Option Bool
  | .blockQuote => some false
  | .heading _ => some true
  | .image _ => some true
  | .link _ _ => some true
  | .tableCell _ _ => some true
  | .document => some true
  | .listItem _ => some true
  | _ => none

/-- `shouldCleanText` (renderer.go:514-529) over the chain of a node's
kind followed by its ancestors' kinds, nearest first.  `none` models the
`panic` when the chain runs out without a verdict. -/
def shouldCleanText : List Shape → Option Bool
  | [] => none
  | sh :: rest =>
    match cleanVerdict sh with
    | some b => some b
    | none => shouldCleanText rest

/-- Modelled from the spec: ANSI style constants from the repository's
colors file (out of scope of src/; the spec treats style emission as a
collaborator).  The exact byte sequences are standard SGR codes; no
claim depends on them beyond their being the fixed strings used below. -/
def resetAll : String := "\x1b[0m"

/-- Modelled from the spec: SGR bold on. -/
def boldOn : String := "\x1b[1m"

/-- Modelled from the spec: SGR italic on. -/
def italicOn : String := "\x1b[3m"

/-- Modelled from the spec: SGR italic off. -/
def italicOff : String := "\x1b[23m"

/-- Modelled from the spec: SGR crossed-out on. -/
def crossedOutOn : String := "\x1b[9m"

/-- Modelled from the spec: SGR crossed-out off. -/
def crossedOutOff : String := "\x1b[29m"

/-- Modelled from the spec: green foreground on. -/
def greenOn : String := "\x1b[32m"

/-- Modelled from the spec: foreground color off. -/
def colorOff : String := "\x1b[39m"

/-- Modelled from the spec: green-styled text. -/
def Green (s : String) : String := greenOn ++ s ++ colorOff

/-- Modelled from the spec: green bold text (code-block bar). -/
def GreenBold (s : String) : String := "\x1b[1;32m" ++ s ++ resetAll

/-- Modelled from the spec: blue-styled text (link/image destinations). -/
def Blue (s : String) : String := "\x1b[34m" ++ s ++ colorOff

/-- Modelled from the spec: red-styled text (inline HTML). -/
def Red (s : String) : String := "\x1b[31m" ++ s ++ colorOff

/-- Modelled from the spec: blue-background italic text (inline code). -/
def BlueBgItalic (s : String) : String := "\x1b[3;44m" ++ s ++ resetAll

/-- go-term-text's `text.EscapeState`: the set of SGR attributes active
at the end of a witnessed string (collaborator data; its `Witness` and
`FormatString` operations are `Collab` parameters). -/
structure EscapeState where
  bold : Bool := false
  dim : Bool := false
  italic : Bool := false
  underlined : Bool := false
  blink : Bool := false
  reverse : Bool := false
  crossedOut : Bool := false
  fgColor : Nat := 0
  bgColor : Nat := 0
deriving DecidableEq, Repr

/-- Modelled from the spec: the table builder's accumulated cells
(tables file not in src/; §4.5 specifies `addHeaderCell`, `addBodyCell`
and `nextBodyRow` as pure accumulation, with the final layout done by
`Render`).  The last entry of `bodyRows` is the row currently open. -/
structure TableState where
  headerCells : List (String × CellAlign) := []
  bodyRows : List (List (String × CellAlign)) := []
deriving DecidableEq, Repr

/-- Modelled from the spec: `AddHeaderCell` appends a cell to the header
row. -/
def addHeaderCell (t : TableState) (content : String) (align : CellAlign) :
    TableState :=
  { t with headerCells := t.headerCells ++ [(content, align)] }

/-- Modelled from the spec: `AddBodyCell` appends a cell to the row
currently open. -/
def addBodyCell (t : TableState) (content : String) (align : CellAlign) :
    TableState :=
  { t with bodyRows :=
      t.bodyRows.dropLast ++ [t.bodyRows.getLastD [] ++ [(content, align)]] }

/-- Modelled from the spec: `NextBodyRow` opens a fresh body row. -/
def nextBodyRow (t : TableState) : TableState :=
  { t with bodyRows := t.bodyRows ++ [[]] }

/-- The external collaborator functions the renderer calls
(go-term-text's wrapping, visual length and escape-state operations, and
the table layout engine's final `Render`).  The specification places all
of these behind interfaces, so the embedding is parameterized by them. -/
structure Collab where
  wrapWithPad : String → Nat → String → String
  wrapWithPadIndent : String → Nat → String → String → String
  strLen : String → Nat
  esWitness : String → EscapeState
  esFormat : EscapeState → String
  tableRender : TableState → Nat → Nat → String

/-- The immutable configuration of a renderer: `lineWidth`, `leftPad`
and the two shade palettes chosen at `NewRenderer` time (widths are
taken as naturals; the renderer only ever uses non-negative ones). -/
structure Cfg where
  lineWidth : Nat
  leftPad : Nat
  headingShade : Int → String → String
  blockQuoteShade : Int → String → String

/-- The mutable fields of the `renderer` struct, plus two ghost
counters (`pushes`/`popsCount`) that record how many times `addPad` and
`popPad` ran; they alter no behaviour. -/
structure RState where
  padAccumulator : List String := []
  indent : String := ""
  inlineAccumulator : String := ""
  headingCounters : List Nat := [0, 0, 0, 0, 0, 0]
  blockQuoteLevel : Int := 0
  table : Option TableState := none
  output : String := ""
  pushes : Nat := 0
  popsCount : Nat := 0
deriving DecidableEq, Repr

/-- `NewRenderer` (renderer.go:113-125): the fresh mutable state every
render call starts from. -/
def initState : RState := {}

/-- `pad` (renderer.go:127-129). -/
def pad (cfg : Cfg) (s : RState) : String :=
  srep " " cfg.leftPad ++ String.join s.padAccumulator

/-- `addPad` (renderer.go:131-133), with the ghost push counter. -/
def addPad (s : RState) (p : String) : RState :=
  { s with padAccumulator := s.padAccumulator ++ [p], pushes := s.pushes + 1 }

/-- `popPad` (renderer.go:135-137), with the ghost pop counter; `none`
models the slice-bounds panic on an empty stack. -/
def popPad (s : RState) : Option RState :=
  match s.padAccumulator with
  | [] => none
  | _ :: _ =>
    some { s with padAccumulator := s.padAccumulator.dropLast,
                  popsCount := s.popsCount + 1 }

/-- Modelled from the spec: the heading-numbering engine's `Observe`
(its file is not under src/; §4.3: "observe(level) increments
counters[level] and zeroes counters[level+1..max]").  Levels are
1-based; the six counters start at zero. -/
def hnObserve : List Nat → Nat → List Nat
  | l, 0 => l
  | [], _ + 1 => []
  | c :: cs, 1 => (c + 1) :: cs.map fun _ => 0
  | c :: cs, n + 2 => c :: hnObserve cs (n + 1)

/-- Modelled from the spec: the heading-numbering engine's `Render`
(§4.3: "render() formats all nonzero leading counters joined by `.`",
with the spec's own example sequence fixing the reading: the zero
counters are dropped and the rest joined with dots). -/
def hnRender (counters : List Nat) : String :=
  String.intercalate "." ((counters.filter fun c => c ≠ 0).map toString)

/-- `renderImage` (renderer.go:465-472): strip newlines and surrounding
whitespace from title and destination, and return the textual
`![title](destination)` fallback (destination in blue) with
`rendered = false`.  (This version of the source never fetches the
image bytes.) -/
def renderImage (dest : String) (title : String) (_lineWidth : Nat) :
    String × Bool :=
  let title := goTrimSpace (dropNl title)
  let dest := goTrimSpace (dropNl dest)
  ("![" ++ title ++ "](" ++ Blue dest ++ ")", false)

/-- `renderHorizontalRule` (renderer.go:408-410). -/
def renderHorizontalRule (cfg : Cfg) (s : RState) : RState :=
  { s with output := (s.output ++ pad cfg s ++
      srep "─" (cfg.lineWidth - cfg.leftPad) ++ "\n\n") }

/-- `renderHeading` (renderer.go:412-431): drain the accumulator,
observe the level, prepend the numbering label, shade, wrap, emit, and
underline level-1 headings. -/
def renderHeading (cl : Collab) (cfg : Cfg) (s : RState) (level : Nat) :
    RState :=
  let content := s.inlineAccumulator
  let s := { s with inlineAccumulator := "" }
  let counters := hnObserve s.headingCounters level
  let s := { s with headingCounters := counters }
  let content := hnRender counters ++ " " ++ content
  let content := cfg.headingShade (level : Int) content
  let wrapped := cl.wrapWithPad content cfg.lineWidth (pad cfg s)
  let s := { s with output := s.output ++ wrapped ++ "\n" }
  let s :=
    if level = 1 then
      { s with output := (s.output ++ pad cfg s ++
          srep "─" (cfg.lineWidth - cfg.leftPad) ++ "\n") }
    else s
  { s with output := s.output ++ "\n" }

/-- `renderFormattedCodeBlock` (renderer.go:438-449): trim the trailing
newlines, wrap under a green bar pushed onto the padding stack for the
duration of the wrap, and emit with a trailing blank line.  The inner
`popPad` always acts on the stack just pushed to, so it is written
directly (Go would panic only on an empty stack, which is impossible
here); the ghost pop counter still advances. -/
def renderFormattedCodeBlock (cl : Collab) (cfg : Cfg) (s : RState)
    (code : String) : RState :=
  let code := trimTrailingNl code
  let s1 := addPad s (GreenBold "┃ ")
  let out := cl.wrapWithPad code cfg.lineWidth (pad cfg s1)
  let s2 := { s1 with padAccumulator := s1.padAccumulator.dropLast,
                      popsCount := s1.popsCount + 1 }
  { s2 with output := s2.output ++ out ++ "\n\n" }

/-- `renderCodeBlock` (renderer.go:433-436). -/
def renderCodeBlock (cl : Collab) (cfg : Cfg) (s : RState) (lit : String) :
    RState :=
  renderFormattedCodeBlock cl cfg s lit

/-- `renderHTMLBlock` (renderer.go:451-463): same shape as the code
block renderer. -/
def renderHTMLBlock (cl : Collab) (cfg : Cfg) (s : RState) (lit : String) :
    RState :=
  let code := trimTrailingNl lit
  let s1 := addPad s (GreenBold "┃ ")
  let out := cl.wrapWithPad code cfg.lineWidth (pad cfg s1)
  let s2 := { s1 with padAccumulator := s1.padAccumulator.dropLast,
                      popsCount := s1.popsCount + 1 }
  { s2 with output := s2.output ++ out ++ "\n\n" }

/-- The title extraction of the `Image` case (renderer.go:305-310): the
alt text is the literal of the single `Text` child, when the node has
exactly one child and it is a `Text`. -/
def imageNodeTitle : Forest → String
  | .cons (.node (.text lit) _) .nil => lit
  | _ => ""

/-- The `node.Align` switch of the `TableCell` case
(renderer.go:371-377): right and center are honored, anything else maps
to left. -/
def mapAlign : TableAlign → CellAlign
  | .right => .right
  | .center => .center
  | _ => .left

/-- The sibling-kind switch of the `Paragraph` case
(renderer.go:239-245): the kinds whose upcoming presence makes the
paragraph emit one extra blank line. -/
def wantsSpaceAfter : Option Node → Bool
  | some (.node sh _) =>
    match sh with
    | .paragraph => true
    | .heading _ => true
    | .horizontalRule => true
    | .codeBlock _ => true
    | .htmlBlock _ => true
    | _ => false
  | _ => false

/-- `ast.WalkStatus` as the renderer uses it. -/
inductive WStatus where
  | goToNext
  | skipChildren
deriving DecidableEq, Repr

/-- `RenderNode` (renderer.go:139-402): the dispatch over node kind and
entering/exiting.  The walk context carried alongside the node is:
`anc`, the kinds of its ancestors (nearest first, used by
`shouldCleanText`); `idx`, the node's position among its siblings
(standing in for the pointer-identity scan that numbers ordered list
items); `next`, its next sibling (`ast.GetNextNode`); and `parent`, its
parent's kind.  `none` models the panics of the Go code (nil
dereferences and the `shouldCleanText` fall-through). -/
def renderNode (cl : Collab) (cfg : Cfg) (s : RState) (anc : List Shape)
    (idx : Nat) (next : Option Node) (parent : Option Shape)
    (sh : Shape) (children : Forest) (entering : Bool) :
    Option (RState × WStatus) :=
  match sh with
  | .document => some (s, .goToNext)
  | .blockQuote =>
    if entering then
      let s := { s with blockQuoteLevel := s.blockQuoteLevel + 1 }
      some (addPad s (cfg.blockQuoteShade s.blockQuoteLevel "┃ "), .goToNext)
    else
      let s := { s with blockQuoteLevel := s.blockQuoteLevel - 1 }
      (popPad s).map fun s => (s, .goToNext)
  | .list =>
    if entering then some (s, .goToNext)
    else
      match next with
      | none => some (s, .goToNext)
      | some n =>
        let parentIsListItem :=
          match parent with
          | some (.listItem _) => true
          | _ => false
        let nextIsList :=
          match n with
          | .node .list _ => true
          | _ => false
        if !nextIsList && !parentIsListItem then
          some ({ s with output := s.output ++ "\n" }, .goToNext)
        else some (s, .goToNext)
  | .listItem flags =>
    if entering then
      if flags.ordered then
        let pfx := toString (idx + 1) ++ ". "
        let s := { s with indent := pad cfg s ++ Green pfx }
        some (addPad s (srep " " (cl.strLen pfx)), .goToNext)
      else if flags.term then
        some ({ s with inlineAccumulator := s.inlineAccumulator ++ greenOn },
          .goToNext)
      else if flags.definition then
        some (addPad s "  ", .goToNext)
      else
        let s := { s with indent := pad cfg s ++ Green "• " }
        some (addPad s "  ", .goToNext)
    else
      if flags.ordered then
        (popPad s).map fun s => (s, .goToNext)
      else if flags.term then
        some ({ s with inlineAccumulator := s.inlineAccumulator ++ colorOff },
          .goToNext)
      else if flags.definition then
        (popPad s).map fun s =>
          ({ s with output := s.output ++ "\n" }, .goToNext)
      else
        (popPad s).map fun s => (s, .goToNext)
  | .paragraph =>
    if entering then some (s, .goToNext)
    else
      let content := s.inlineAccumulator
      let s := { s with inlineAccumulator := "" }
      let outAndState : String × RState :=
        if s.indent ≠ "" then
          (cl.wrapWithPadIndent content cfg.lineWidth s.indent (pad cfg s),
            { s with indent := "" })
        else
          (cl.wrapWithPad content cfg.lineWidth (pad cfg s), s)
      let s := outAndState.2
      let s := { s with output := s.output ++ outAndState.1 ++ "\n" }
      if wantsSpaceAfter next then
        some ({ s with output := s.output ++ "\n" }, .goToNext)
      else some (s, .goToNext)
  | .heading level =>
    if entering then some (s, .goToNext)
    else some (renderHeading cl cfg s level, .goToNext)
  | .horizontalRule => some (renderHorizontalRule cfg s, .goToNext)
  | .emph =>
    if entering then
      some ({ s with inlineAccumulator := s.inlineAccumulator ++ italicOn },
        .goToNext)
    else
      some ({ s with inlineAccumulator := s.inlineAccumulator ++ italicOff },
        .goToNext)
  | .strong =>
    if entering then
      some ({ s with inlineAccumulator := s.inlineAccumulator ++ boldOn },
        .goToNext)
    else
      let es := cl.esWitness s.inlineAccumulator
      let es := { es with bold := false }
      some ({ s with inlineAccumulator :=
        (s.inlineAccumulator ++ resetAll ++ cl.esFormat es) }, .goToNext)
  | .del =>
    if entering then
      some ({ s with inlineAccumulator :=
        (s.inlineAccumulator ++ crossedOutOn) }, .goToNext)
    else
      some ({ s with inlineAccumulator :=
        (s.inlineAccumulator ++ crossedOutOff) }, .goToNext)
  | .link dest title =>
    if entering then
      match children.head? with
      | none => none
      | some c =>
        match c.asLeafLiteral with
        | none => none
        | some lit =>
          some ({ s with inlineAccumulator :=
            (s.inlineAccumulator ++ "[" ++ lit ++ "](" ++ Blue dest ++
              (if title = "" then "" else " " ++ title) ++ ")") },
            .skipChildren)
    else some (s, .goToNext)
  | .image dest =>
    if entering then
      let title := imageNodeTitle children
      let res := renderImage dest title (cfg.lineWidth - cfg.leftPad)
      if res.2 then
        some ({ s with inlineAccumulator :=
          (s.inlineAccumulator ++ "\n" ++ res.1 ++ "\n\n") }, .skipChildren)
      else
        some ({ s with inlineAccumulator :=
          (s.inlineAccumulator ++ res.1 ++ "\n") }, .skipChildren)
    else some (s, .goToNext)
  | .text lit =>
    if lit = "\n" then some (s, .goToNext)
    else
      match shouldCleanText (.text lit :: anc) with
      | none => none
      | some clean =>
        let content := if clean then removeLineBreak lit else lit
        some ({ s with inlineAccumulator := s.inlineAccumulator ++ content },
          .goToNext)
  | .htmlBlock lit => some (renderHTMLBlock cl cfg s lit, .goToNext)
  | .codeBlock lit => some (renderCodeBlock cl cfg s lit, .goToNext)
  | .softbreak =>
    some ({ s with inlineAccumulator := s.inlineAccumulator ++ "\n" },
      .goToNext)
  | .hardbreak =>
    some ({ s with inlineAccumulator := s.inlineAccumulator ++ "\n" },
      .goToNext)
  | .code lit =>
    some ({ s with inlineAccumulator :=
      (s.inlineAccumulator ++ BlueBgItalic lit) }, .goToNext)
  | .htmlSpan lit =>
    some ({ s with inlineAccumulator := s.inlineAccumulator ++ Red lit },
      .goToNext)
  | .table =>
    if entering then some ({ s with table := some {} }, .goToNext)
    else
      match s.table with
      | none => none
      | some t =>
        let s := { s with output :=
          (s.output ++ cl.tableRender t cfg.leftPad cfg.lineWidth) }
        some ({ s with table := none }, .goToNext)
  | .tableCell isHeader align =>
    if entering then some (s, .goToNext)
    else
      let content := s.inlineAccumulator
      let s := { s with inlineAccumulator := "" }
      match s.table with
      | none => none
      | some t =>
        if isHeader then
          some ({ s with table := some (addHeaderCell t content
            (mapAlign align)) }, .goToNext)
        else
          some ({ s with table := some (addBodyCell t content
            CellAlign.copyHeader) }, .goToNext)
  | .tableHeader => some (s, .goToNext)
  | .tableBody => some (s, .goToNext)
  | .tableFooter => some (s, .goToNext)
  | .tableRow =>
    match parent with
    | some .tableBody =>
      if entering then
        match s.table with
        | none => none
        | some t => some ({ s with table := some (nextBodyRow t) }, .goToNext)
      else some (s, .goToNext)
    | some .tableFooter =>
      if entering then
        match s.table with
        | none => none
        | some t => some ({ s with table := some (nextBodyRow t) }, .goToNext)
      else some (s, .goToNext)
    | _ => some (s, .goToNext)

mutual
/-- gomarkdown's `ast.Walk` driving `RenderNode`: visit the node
entering, recurse into the children unless the visitor skipped them,
and send the exit visit to container nodes.  The context arguments are
as in `renderNode`. -/
def walkNode (cl : Collab) (cfg : Cfg) (anc : List Shape) (idx : Nat)
    (next : Option Node) (parent : Option Shape) (s : RState) :
    Node → Option RState
  | .node sh children =>
    match renderNode cl cfg s anc idx next parent sh children true with
    | none => none
    | some (s1, st) =>
      if sh.isContainer then
        match
          (if st = WStatus.skipChildren then some s1
           else walkForest cl cfg (sh :: anc) 0 (some sh) s1 children) with
        | none => none
        | some s2 =>
          match renderNode cl cfg s2 anc idx next parent sh children false with
          | none => none
          | some (s3, _) => some s3
      else some s1

/-- Walk a sibling list left to right, handing each node its index and
next sibling. -/
def walkForest (cl : Collab) (cfg : Cfg) (anc : List Shape) (idx : Nat)
    (parent : Option Shape) (s : RState) : Forest → Option RState
  | .nil => some s
  | .cons n t =>
    match walkNode cl cfg anc idx t.head? parent s n with
    | none => none
    | some s1 => walkForest cl cfg anc (idx + 1) parent s1 t
end

/-- A full render call: fresh state from `NewRenderer`, then the walk
from the document root. -/
def render (cl : Collab) (cfg : Cfg) (doc : Node) : Option RState :=
  walkNode cl cfg [] 0 none none initState doc

/-- Two successive render calls over the same tree, each constructing
its renderer afresh exactly as the package-level entry point does. -/
def renderTwice (cl : Collab) (cfg : Cfg) (doc : Node) :
    Option String × Option String :=
  let first := (render cl cfg doc).map RState.output
  let second := (render cl cfg doc).map RState.output
  (first, second)

/-- Join fragments with single newlines (the inverse reading of
`splitOnNl`, used to quantify over texts with a known fragment list). -/
def joinNl : List (List Char) → List Char
  | [] => []
  | [f] => f
  | f :: g :: gs => f ++ '\n' :: joinNl (g :: gs)

/-- The observable behaviour of the heading-numbering engine on a
sequence of observed levels: the label rendered after each
observation, starting from the all-zero counters. -/
def observeRenderSeq (levels : List Nat) : List String :=
  (levels.foldl
    (fun acc l =>
      let c := hnObserve acc.1 l
      (c, acc.2 ++ [hnRender c]))
    (([0, 0, 0, 0, 0, 0] : List Nat), ([] : List String))).2

/-- The padding-stack/blockquote-depth signature two states share when
a subtree's walk is balanced: same stack, same depth, and the same
difference between the ghost push and pop counters. -/
def padPres (s s' : RState) : Prop :=
  s'.padAccumulator = s.padAccumulator ∧
  s'.blockQuoteLevel = s.blockQuoteLevel ∧
  s'.pushes + s.popsCount = s.pushes + s'.popsCount

/-- The node kinds whose enter visit pushes one padding fragment that
their exit visit pops: blockquotes and list items other than
definition-term items (renderer.go:151-221). -/
def Shape.padPushing : Shape → Bool
  | .blockQuote => true
  | .listItem f => f.ordered || !f.term
  | _ => false

/-- A simple concrete instantiation of the collaborator functions, used
to evaluate the renderer on closed inputs: wrapping just prepends the
pad or indent, the escape state is inert, tables render to a fixed
marker. -/
def demoCollab : Collab where
  wrapWithPad c _ p := p ++ c
  wrapWithPadIndent c _ i _ := i ++ c
  strLen s := s.length
  esWitness _ := {}
  esFormat _ := ""
  tableRender _ _ _ := "[table]"

/-- A concrete configuration with identity shades. -/
def demoCfg : Cfg where
  lineWidth := 20
  leftPad := 0
  headingShade _ s := s
  blockQuoteShade _ s := s

/-- A concrete document: a blockquote holding a paragraph holding a
text leaf. -/
def demoDoc : Node :=
  .node .document (.cons
    (.node .blockQuote (.cons
      (.node .paragraph (.cons (.node (.text "hi") .nil) .nil))
      .nil))
    .nil)

/-- A state as it stands between a table's enter visit and its cells:
fresh, with an empty table builder installed. -/
def demoTableEntryState : RState :=
  { initState with table := some {} }

/-- The state `render demoCollab demoCfg demoDoc` ends in: one push
and one pop for the blockquote bar, stack empty again. -/
def c3DemoFinal : RState :=
  { output := "┃ hi\n", pushes := 1, popsCount := 1 }

theorem splitOnNl_ne_nil (l : List Char) : splitOnNl l ≠ [] := by
  cases l with
  | nil => simp [splitOnNl]
  | cons c cs =>
    simp only [splitOnNl]
    cases h : splitOnNl cs with
    | nil => simp
    | cons hd tl =>
      by_cases hc : c = '\n' <;> simp [hc]

theorem splitOnNl_no_nl (f : List Char) (h : '\n' ∉ f) :
    splitOnNl f = [f] := by
  induction f with
  | nil => simp [splitOnNl]
  | cons c cs ih =>
    have hc : c ≠ '\n' := fun hne => h (hne ▸ List.mem_cons_self c cs)
    have hcs : '\n' ∉ cs := fun hm => h (List.mem_cons_of_mem c hm)
    simp [splitOnNl, ih hcs, hc]

theorem splitOnNl_prepend (f rest : List Char) (h : '\n' ∉ f) :
    splitOnNl (f ++ '\n' :: rest) = f :: splitOnNl rest := by
  induction f with
  | nil =>
    simp only [List.nil_append, splitOnNl]
    cases hr : splitOnNl rest with
    | nil => exact absurd hr (splitOnNl_ne_nil rest)
    | cons hd tl => simp
  | cons c cs ih =>
    have hc : c ≠ '\n' := fun hne => h (hne ▸ List.mem_cons_self c cs)
    have hcs : '\n' ∉ cs := fun hm => h (List.mem_cons_of_mem c hm)
    have ihv := ih hcs
    simp only [List.cons_append, splitOnNl, List.append_eq]
    rw [ihv]
    simp [hc]

theorem splitOnNl_joinNl (gs : List (List Char)) (hne : gs ≠ [])
    (h : ∀ g ∈ gs, '\n' ∉ g) : splitOnNl (joinNl gs) = gs := by
  induction gs with
  | nil => exact absurd rfl hne
  | cons g gs ih =>
    cases gs with
    | nil =>
      simp only [joinNl]
      exact splitOnNl_no_nl g (h g (List.mem_cons_self g []))
    | cons g' gs' =>
      have hrec := ih (by simp) (fun x hx => h x (List.mem_cons_of_mem g hx))
      simp only [joinNl]
      rw [splitOnNl_prepend g _ (h g (List.mem_cons_self g _)), hrec]

theorem trimInner_append (mid : List (List Char)) (last : List Char) :
    trimInner (mid ++ [last]) = mid.map trimF ++ [trimLeftF last] := by
  induction mid with
  | nil => simp [trimInner]
  | cons m ms ih =>
    cases ms with
    | nil => simp [trimInner]
    | cons m' ms' =>
      have step : trimInner (m :: m' :: (ms' ++ [last])) =
          trimF m :: trimInner (m' :: (ms' ++ [last])) := rfl
      simp only [List.cons_append, step]
      rw [show m' :: (ms' ++ [last]) = (m' :: ms') ++ [last] from rfl, ih]
      simp

/-- Claim C1, counterexample: the claim assigns the trim directions the
wrong way round.  On the text " a \x0a b " (one embedded line break,
whitespace on both sides of both fragments) the source's
`removeLineBreak` keeps the leading whitespace of the first fragment
and the trailing whitespace of the last (" a b "), whereas the claimed
transformation — leading whitespace stripped from the first fragment,
trailing from the last — would produce "a   b". -/
theorem c1_counterexample :
    removeLineBreak " a \n b " = " a b " ∧
    removeLineBreakClaimed " a \n b " = "a   b" ∧
    removeLineBreak " a \n b " ≠ removeLineBreakClaimed " a \n b " ∧
    renderNode demoCollab demoCfg initState [Shape.heading 1] 0 none none
      (.text " a \n b ") .nil true =
      some ({ initState with inlineAccumulator := " a b " }, .goToNext) := by
  refine ⟨by decide, by decide, by decide, by decide⟩

/-- Claim C1 as amended: for every text made of two or more
newline-free fragments joined by single line breaks, `removeLineBreak`
collapses each break to a single space, stripping TRAILING whitespace
from the first fragment, LEADING whitespace from the last fragment and
both sides from interior fragments. -/
theorem c1_remove_line_break (first last : List Char)
    (mid : List (List Char)) (h1 : '\n' ∉ first)
    (h2 : ∀ g ∈ mid, '\n' ∉ g) (h3 : '\n' ∉ last) :
    removeLineBreakL (joinNl (first :: (mid ++ [last]))) =
      List.intercalate [' ']
        (trimRightF first :: (mid.map trimF ++ [trimLeftF last])) := by
  have hall : ∀ g ∈ first :: (mid ++ [last]), '\n' ∉ g := by
    intro g hg
    rcases List.mem_cons.mp hg with hg | hg
    · exact hg ▸ h1
    · rcases List.mem_append.mp hg with hg | hg
      · exact h2 g hg
      · rcases List.mem_singleton.mp hg with rfl
        exact h3
  have hsplit : splitOnNl (joinNl (first :: (mid ++ [last]))) =
      first :: (mid ++ [last]) :=
    splitOnNl_joinNl _ (by simp) hall
  cases mid with
  | nil =>
    simp only [List.nil_append] at hsplit ⊢
    simp only [removeLineBreakL, hsplit]
    simp [trimInner]
  | cons m ms =>
    simp only [List.cons_append] at hsplit ⊢
    simp only [removeLineBreakL, hsplit]
    have : trimInner (m :: (ms ++ [last])) =
        (m :: ms).map trimF ++ [trimLeftF last] := by
      have := trimInner_append (m :: ms) last
      simpa using this
    rw [this]

/-- Claim C1 witness: the amended statement at the concrete fragments
"a ", " b ", " c". -/
theorem c1_witness :
    ('\n' ∉ ("a ".data)) ∧ (∀ g ∈ [(" b ".data)], '\n' ∉ g) ∧
    ('\n' ∉ (" c".data)) ∧
    removeLineBreakL (joinNl (("a ".data) :: ([(" b ".data)] ++ [(" c".data)]))) =
      List.intercalate [' ']
        (trimRightF ("a ".data) ::
          ([(" b ".data)].map trimF ++ [trimLeftF (" c".data)])) :=
  ⟨by decide, by decide, by decide,
    c1_remove_line_break ("a ".data) (" c".data) [(" b ".data)]
      (by decide) (by decide) (by decide)⟩

theorem shouldCleanText_skip (pre l : List Shape)
    (h : ∀ sh ∈ pre, cleanVerdict sh = none) :
    shouldCleanText (pre ++ l) = shouldCleanText l := by
  induction pre with
  | nil => simp
  | cons sh rest ih =>
    have hsh : cleanVerdict sh = none := h sh (List.mem_cons_self sh rest)
    have hrest : ∀ x ∈ rest, cleanVerdict x = none :=
      fun x hx => h x (List.mem_cons_of_mem sh hx)
    simp only [List.cons_append, shouldCleanText, hsh]
    exact ih hrest

/-- Claim C2: whether a Text node's embedded line breaks are collapsed
is decided by the nearest relevant ancestor.  (1) If a BlockQuote comes
before any cleaning kind in the ancestor chain, `shouldCleanText` says
no.  (2) Such a text node is appended to the inline accumulator
verbatim, author line breaks intact.  (3) Text under a Heading has the
break of "Hello\x0aWorld" collapsed to "Hello World".  (4) So does text
of a Paragraph at the document root. -/
theorem c2_blockquote_vs_clean :
    (∀ pre rest, (∀ sh ∈ pre, cleanVerdict sh = none) →
      shouldCleanText (pre ++ Shape.blockQuote :: rest) = some false) ∧
    (∀ cl cfg s anc idx next parent pre rest lit cs, lit ≠ "\n" →
      anc = pre ++ Shape.blockQuote :: rest →
      (∀ sh ∈ pre, cleanVerdict sh = none) →
      renderNode cl cfg s anc idx next parent (.text lit) cs true =
        some ({ s with inlineAccumulator := s.inlineAccumulator ++ lit },
          .goToNext)) ∧
    (∀ cl cfg s rest idx next parent lvl cs,
      renderNode cl cfg s (Shape.heading lvl :: rest) idx next parent
        (.text "Hello\nWorld") cs true =
        some ({ s with inlineAccumulator :=
          (s.inlineAccumulator ++ "Hello World") }, .goToNext)) ∧
    (∀ cl cfg s rest idx next parent cs,
      renderNode cl cfg s (Shape.paragraph :: Shape.document :: rest) idx
        next parent (.text "Hello\nWorld") cs true =
        some ({ s with inlineAccumulator :=
          (s.inlineAccumulator ++ "Hello World") }, .goToNext)) := by
  have hstop : ∀ pre rest, (∀ sh ∈ pre, cleanVerdict sh = none) →
      shouldCleanText (pre ++ Shape.blockQuote :: rest) = some false := by
    intro pre rest h
    rw [shouldCleanText_skip pre _ h]
    simp [shouldCleanText, cleanVerdict]
  refine ⟨hstop, ?_, ?_, ?_⟩
  · intro cl cfg s anc idx next parent pre rest lit cs hlit hanc hpre
    subst hanc
    have hchain : shouldCleanText
        (Shape.text lit :: (pre ++ Shape.blockQuote :: rest)) = some false := by
      have := hstop (Shape.text lit :: pre) rest (by
        intro sh hsh
        rcases List.mem_cons.mp hsh with rfl | hsh
        · rfl
        · exact hpre sh hsh)
      simpa using this
    simp [renderNode, hlit, hchain]
  · intro cl cfg s rest idx next parent lvl cs
    have hchain : shouldCleanText
        (Shape.text "Hello\nWorld" :: Shape.heading lvl :: rest) =
        some true := by simp [shouldCleanText, cleanVerdict]
    have hclean : removeLineBreak "Hello\nWorld" = "Hello World" := by decide
    simp [renderNode, hchain, hclean]
  · intro cl cfg s rest idx next parent cs
    have hchain : shouldCleanText
        (Shape.text "Hello\nWorld" :: Shape.paragraph :: Shape.document ::
          rest) = some true := by simp [shouldCleanText, cleanVerdict]
    have hclean : removeLineBreak "Hello\nWorld" = "Hello World" := by decide
    simp [renderNode, hchain, hclean]

/-- Claim C2 witness: the blockquote branch at the concrete ancestor
chain paragraph–blockquote–document with literal "hi\x0athere", and the
cleaning branches at their stated inputs. -/
theorem c2_witness :
    ("hi\nthere" : String) ≠ "\n" ∧
    ([Shape.paragraph, Shape.blockQuote, Shape.document] : List Shape) =
      [Shape.paragraph] ++ Shape.blockQuote :: [Shape.document] ∧
    (∀ sh ∈ [Shape.paragraph], cleanVerdict sh = none) ∧
    renderNode demoCollab demoCfg initState
      [Shape.paragraph, Shape.blockQuote, Shape.document] 0 none none
      (.text "hi\nthere") .nil true =
      some ({ initState with inlineAccumulator :=
        (initState.inlineAccumulator ++ "hi\nthere") }, .goToNext) :=
  ⟨by decide, by decide, by decide,
    c2_blockquote_vs_clean.2.1 demoCollab demoCfg initState _ 0 none none
      [Shape.paragraph] [Shape.document] "hi\nthere" .nil (by decide) rfl
      (by decide)⟩

/-- Claim C5: exiting a Paragraph drains the inline accumulator, wraps
it with the one-shot first-line indent when one is set (clearing it),
emits the block plus a single newline, and appends exactly one extra
blank line precisely when the next sibling is a Paragraph, Heading,
HorizontalRule, CodeBlock or HTMLBlock. -/
theorem c5_paragraph_exit :
    (∀ cl cfg s anc idx next parent cs,
      renderNode cl cfg s anc idx next parent .paragraph cs false =
        some ({ s with
          inlineAccumulator := "",
          indent := "",
          output := (s.output ++
            (if s.indent = "" then
              cl.wrapWithPad s.inlineAccumulator cfg.lineWidth (pad cfg s)
            else
              cl.wrapWithPadIndent s.inlineAccumulator cfg.lineWidth s.indent
                (pad cfg s)) ++ "\n" ++
            (if wantsSpaceAfter next then "\n" else "")) }, .goToNext)) ∧
    (∀ next : Option Node, wantsSpaceAfter next = true ↔
      ∃ sh children, next = some (Node.node sh children) ∧
        (sh = .paragraph ∨ (∃ l, sh = .heading l) ∨ sh = .horizontalRule ∨
          (∃ l, sh = .codeBlock l) ∨ (∃ l, sh = .htmlBlock l))) := by
  constructor
  · intro cl cfg s anc idx next parent cs
    by_cases hind : s.indent = "" <;>
      cases hw : wantsSpaceAfter next <;>
        simp [renderNode, hind, hw, pad]
  · intro next
    constructor
    · intro h
      match next with
      | none => simp [wantsSpaceAfter] at h
      | some (.node sh children) =>
        refine ⟨sh, children, rfl, ?_⟩
        cases sh <;> simp_all [wantsSpaceAfter]
    · rintro ⟨sh, children, rfl, hsh⟩
      rcases hsh with rfl | ⟨l, rfl⟩ | rfl | ⟨l, rfl⟩ | ⟨l, rfl⟩ <;>
        simp [wantsSpaceAfter]

/-- Claim C6: exiting a Strong span never writes a lone bold-off SGR:
the renderer witnesses the escape state of the whole accumulated text,
clears bold in that snapshot, and appends the full reset followed by the
re-application of the remaining attributes. -/
theorem c6_strong_exit :
    (∀ cl cfg s anc idx next parent cs,
      renderNode cl cfg s anc idx next parent .strong cs false =
        some ({ s with inlineAccumulator :=
          (s.inlineAccumulator ++ resetAll ++
            cl.esFormat { cl.esWitness s.inlineAccumulator with
              bold := false }) }, .goToNext)) ∧
    (∀ es : EscapeState, ({ es with bold := false }).bold = false) := by
  exact ⟨fun cl cfg s anc idx next parent cs => by simp [renderNode],
    fun es => rfl⟩

/-- Claim C8: a render call starts from the fresh `NewRenderer` state
and is a pure function of the tree and the configuration, so two
successive render calls over the same tree under the same configuration
produce byte-identical output. -/
theorem c8_deterministic :
    ∀ cl cfg doc, (renderTwice cl cfg doc).1 = (renderTwice cl cfg doc).2 :=
  fun _ _ _ => rfl

theorem hnObserve_succ (cs : List Nat) (level : Nat) :
    hnObserve cs (level + 1) = cs.take level ++
      (match cs.drop level with
       | [] => []
       | c :: rest => (c + 1) :: rest.map fun _ => 0) := by
  induction level generalizing cs with
  | zero => cases cs <;> simp [hnObserve]
  | succ m ih =>
    cases cs with
    | nil => simp [hnObserve]
    | cons c rest => simp [hnObserve, ih]

/-- Claim C4: the heading numbering engine, from all-zero counters,
increments the observed level's counter and zeroes all deeper ones on
`observe`, renders the nonzero counters joined by dots, and on the
level sequence 1, 2, 2, 1, 3 produces exactly the labels "1", "1.1",
"1.2", "2", "2.1". -/
theorem c4_heading_numbering :
    observeRenderSeq [1, 2, 2, 1, 3] = ["1", "1.1", "1.2", "2", "2.1"] ∧
    (∀ (cs : List Nat) (level : Nat),
      hnObserve cs (level + 1) = cs.take level ++
        (match cs.drop level with
         | [] => []
         | c :: rest => (c + 1) :: rest.map fun _ => 0)) :=
  ⟨by decide, hnObserve_succ⟩

/-- Claim C7, counterexample: the textual fallback the renderer
actually produces for an image is "![title](destination)" with the
destination styled blue, not the plain "[title](destination)" the claim
quotes. -/
theorem c7_counterexample :
    (renderImage "d" "t" 78).1 ≠ "[t](d)" ∧
    (renderImage "d" "t" 78).1 = "![t](" ++ Blue "d" ++ ")" := by
  exact ⟨by decide, by decide⟩

/-- Claim C7 as amended: for every Image node (in this source no image
bytes are ever fetched, so every image takes the fallback path), the
renderer appends the textual fallback "![title](destination)" — title
and destination with embedded newlines removed and surrounding
whitespace trimmed, the destination styled blue — plus a newline to the
inline accumulator, skips the image's children, and never fails, so a
non-renderable image cannot abort the document render. -/
theorem c7_image_fallback :
    (∀ dest title w, renderImage dest title w =
      ("![" ++ goTrimSpace (dropNl title) ++ "](" ++
        Blue (goTrimSpace (dropNl dest)) ++ ")", false)) ∧
    (∀ cl cfg s anc idx next parent dest children,
      renderNode cl cfg s anc idx next parent (.image dest) children true =
        some ({ s with inlineAccumulator :=
          (s.inlineAccumulator ++
            (renderImage dest (imageNodeTitle children)
              (cfg.lineWidth - cfg.leftPad)).1 ++ "\n") }, .skipChildren)) := by
  constructor
  · intro dest title w
    rfl
  · intro cl cfg s anc idx next parent dest children
    simp [renderNode, renderImage]

/-- Claim C9: on exiting a table cell, a header cell is recorded with
its own (mapped) alignment, while a body cell is always recorded with
the copy-header sentinel, whatever its own alignment attribute says. -/
theorem c9_body_cell_align :
    ∀ cl cfg s anc idx next parent (t : TableState) align isHeader cs,
      s.table = some t →
      renderNode cl cfg s anc idx next parent (.tableCell isHeader align) cs
        false =
        some ({ s with
          inlineAccumulator := "",
          table := some (if isHeader then
              addHeaderCell t s.inlineAccumulator (mapAlign align)
            else addBodyCell t s.inlineAccumulator CellAlign.copyHeader) },
          .goToNext) := by
  intro cl cfg s anc idx next parent t align isHeader cs ht
  cases isHeader <;> simp [renderNode, ht]

/-- Claim C9 witness: a body cell carrying an explicit right alignment
is recorded with the copy-header sentinel. -/
theorem c9_witness :
    demoTableEntryState.table = some ({} : TableState) ∧
    renderNode demoCollab demoCfg demoTableEntryState [] 0 none none
      (.tableCell false TableAlign.right) .nil false =
      some ({ demoTableEntryState with
        inlineAccumulator := "",
        table := some (addBodyCell {} "" CellAlign.copyHeader) },
        .goToNext) :=
  ⟨rfl, c9_body_cell_align demoCollab demoCfg demoTableEntryState [] 0 none
    none {} TableAlign.right false .nil rfl⟩

/-- Claim C10: the rendered label of a Link uses exactly the literal of
the link's first child and the children are then skipped; when the
first child carries no literal (its `AsLeaf()` is nil — for instance an
Image first child — or the link has no children at all), entering the
Link panics instead of degrading. -/
theorem c10_link_first_child :
    (∀ cl cfg s anc idx next parent dest title (c : Node) rest lit,
      c.asLeafLiteral = some lit →
      renderNode cl cfg s anc idx next parent (.link dest title)
        (.cons c rest) true =
        some ({ s with inlineAccumulator :=
          (s.inlineAccumulator ++ "[" ++ lit ++ "](" ++ Blue dest ++
            (if title = "" then "" else " " ++ title) ++ ")") },
          .skipChildren)) ∧
    (∀ cl cfg s anc idx next parent dest title (c : Node) rest,
      c.asLeafLiteral = none →
      renderNode cl cfg s anc idx next parent (.link dest title)
        (.cons c rest) true = none) ∧
    (∀ cl cfg s anc idx next parent dest title idest ich rest,
      renderNode cl cfg s anc idx next parent (.link dest title)
        (.cons (.node (.image idest) ich) rest) true = none) ∧
    (∀ cl cfg s anc idx next parent dest title,
      renderNode cl cfg s anc idx next parent (.link dest title) .nil true =
        none) := by
  refine ⟨?_, ?_, ?_, ?_⟩
  · intro cl cfg s anc idx next parent dest title c rest lit h
    simp [renderNode, Forest.head?, h]
  · intro cl cfg s anc idx next parent dest title c rest h
    simp [renderNode, Forest.head?, h]
  · intro cl cfg s anc idx next parent dest title idest ich rest
    simp [renderNode, Forest.head?, Node.asLeafLiteral]
  · intro cl cfg s anc idx next parent dest title
    simp [renderNode, Forest.head?]

/-- Claim C10 witness: a text first child yields its literal as the
label (children skipped), and an emphasis first child (no literal)
makes the enter visit fail. -/
theorem c10_witness :
    (Node.node (Shape.text "x") .nil).asLeafLiteral = some "x" ∧
    renderNode demoCollab demoCfg initState [] 0 none none
      (.link "dst" "") (.cons (.node (.text "x") .nil) .nil) true =
      some ({ initState with inlineAccumulator :=
        (initState.inlineAccumulator ++ "[" ++ "x" ++ "](" ++ Blue "dst" ++
          (if ("" : String) = "" then "" else " " ++ "") ++ ")") },
        .skipChildren) ∧
    (Node.node Shape.emph .nil).asLeafLiteral = none ∧
    renderNode demoCollab demoCfg initState [] 0 none none
      (.link "dst" "") (.cons (.node .emph .nil) .nil) true = none :=
  ⟨rfl,
    c10_link_first_child.1 demoCollab demoCfg initState [] 0 none none
      "dst" "" (.node (.text "x") .nil) .nil "x" rfl,
    rfl,
    c10_link_first_child.2.1 demoCollab demoCfg initState [] 0 none none
      "dst" "" (.node .emph .nil) .nil rfl⟩

theorem padPres_refl (s : RState) : padPres s s :=
  ⟨rfl, rfl, rfl⟩

theorem padPres_trans {a b c : RState} (h1 : padPres a b)
    (h2 : padPres b c) : padPres a c := by
  obtain ⟨p1, q1, r1⟩ := h1
  obtain ⟨p2, q2, r2⟩ := h2
  exact ⟨p2.trans p1, q2.trans q1, by omega⟩

theorem padPres_renderHorizontalRule (cfg : Cfg) (s : RState) :
    padPres s (renderHorizontalRule cfg s) :=
  ⟨rfl, rfl, rfl⟩

theorem padPres_renderHeading (cl : Collab) (cfg : Cfg) (s : RState)
    (level : Nat) : padPres s (renderHeading cl cfg s level) := by
  unfold renderHeading
  by_cases h : level = 1 <;> simp [h, padPres]

theorem padPres_renderFormattedCodeBlock (cl : Collab) (cfg : Cfg)
    (s : RState) (code : String) :
    padPres s (renderFormattedCodeBlock cl cfg s code) := by
  unfold renderFormattedCodeBlock addPad
  refine ⟨?_, rfl, ?_⟩
  · simp
  · simp
    omega

theorem padPres_renderHTMLBlock (cl : Collab) (cfg : Cfg)
    (s : RState) (code : String) :
    padPres s (renderHTMLBlock cl cfg s code) := by
  unfold renderHTMLBlock addPad
  refine ⟨?_, rfl, ?_⟩
  · simp
  · simp
    omega

theorem renderNode_enter_pad (cl : Collab) (cfg : Cfg) (s : RState)
    (anc : List Shape) (idx : Nat) (next : Option Node)
    (parent : Option Shape) (sh : Shape) (children : Forest)
    (s1 : RState) (st : WStatus)
    (h : renderNode cl cfg s anc idx next parent sh children true =
      some (s1, st)) :
    if sh.padPushing then
      (∃ p, s1.padAccumulator = s.padAccumulator ++ [p]) ∧
      s1.blockQuoteLevel = s.blockQuoteLevel +
        (if sh = Shape.blockQuote then 1 else 0) ∧
      s1.pushes = s.pushes + 1 ∧ s1.popsCount = s.popsCount
    else padPres s s1 := by
  cases sh with
  | document =>
    simp only [renderNode, Option.some.injEq, Prod.mk.injEq] at h
    obtain ⟨rfl, -⟩ := h
    simpa [Shape.padPushing] using padPres_refl s
  | blockQuote =>
    simp [renderNode] at h
    obtain ⟨rfl, -⟩ := h
    simp [Shape.padPushing, addPad]
  | list =>
    simp [renderNode] at h
    obtain ⟨rfl, -⟩ := h
    simpa [Shape.padPushing] using padPres_refl s
  | listItem flags =>
    cases flags with
    | mk o t d =>
      cases o <;> cases t <;> cases d <;>
        simp [renderNode] at h <;>
        obtain ⟨rfl, -⟩ := h <;>
        simp [Shape.padPushing, addPad, padPres]
  | paragraph =>
    simp [renderNode] at h
    obtain ⟨rfl, -⟩ := h
    simpa [Shape.padPushing] using padPres_refl s
  | heading level =>
    simp [renderNode] at h
    obtain ⟨rfl, -⟩ := h
    simpa [Shape.padPushing] using padPres_refl s
  | horizontalRule =>
    simp [renderNode] at h
    obtain ⟨rfl, -⟩ := h
    simpa [Shape.padPushing] using padPres_renderHorizontalRule cfg s
  | emph =>
    simp [renderNode] at h
    obtain ⟨rfl, -⟩ := h
    simpa [Shape.padPushing] using padPres_refl s
  | strong =>
    simp [renderNode] at h
    obtain ⟨rfl, -⟩ := h
    simpa [Shape.padPushing] using padPres_refl s
  | del =>
    simp [renderNode] at h
    obtain ⟨rfl, -⟩ := h
    simpa [Shape.padPushing] using padPres_refl s
  | link dest title =>
    simp only [renderNode] at h
    split at h
    · split at h
      · exact absurd h (by simp)
      · split at h
        · exact absurd h (by simp)
        · simp only [Option.some.injEq, Prod.mk.injEq] at h
          obtain ⟨rfl, -⟩ := h
          simpa [Shape.padPushing] using padPres_refl s
    · simp only [Option.some.injEq, Prod.mk.injEq] at h
      obtain ⟨rfl, -⟩ := h
      simpa [Shape.padPushing] using padPres_refl s
  | image dest =>
    simp [renderNode, renderImage] at h
    obtain ⟨rfl, -⟩ := h
    simpa [Shape.padPushing] using padPres_refl s
  | text lit =>
    simp only [renderNode] at h
    split at h
    · simp only [Option.some.injEq, Prod.mk.injEq] at h
      obtain ⟨rfl, -⟩ := h
      simpa [Shape.padPushing] using padPres_refl s
    · split at h
      · exact absurd h (by simp)
      · simp only [Option.some.injEq, Prod.mk.injEq] at h
        obtain ⟨rfl, -⟩ := h
        simpa [Shape.padPushing] using padPres_refl s
  | htmlBlock lit =>
    simp [renderNode] at h
    obtain ⟨rfl, -⟩ := h
    simpa [Shape.padPushing] using padPres_renderHTMLBlock cl cfg s lit
  | codeBlock lit =>
    simp [renderNode] at h
    obtain ⟨rfl, -⟩ := h
    simpa [Shape.padPushing] using
      padPres_renderFormattedCodeBlock cl cfg s lit
  | softbreak =>
    simp [renderNode] at h
    obtain ⟨rfl, -⟩ := h
    simpa [Shape.padPushing] using padPres_refl s
  | hardbreak =>
    simp [renderNode] at h
    obtain ⟨rfl, -⟩ := h
    simpa [Shape.padPushing] using padPres_refl s
  | code lit =>
    simp [renderNode] at h
    obtain ⟨rfl, -⟩ := h
    simpa [Shape.padPushing] using padPres_refl s
  | htmlSpan lit =>
    simp [renderNode] at h
    obtain ⟨rfl, -⟩ := h
    simpa [Shape.padPushing] using padPres_refl s
  | table =>
    simp [renderNode] at h
    obtain ⟨rfl, -⟩ := h
    simpa [Shape.padPushing] using padPres_refl s
  | tableCell isHeader align =>
    simp [renderNode] at h
    obtain ⟨rfl, -⟩ := h
    simpa [Shape.padPushing] using padPres_refl s
  | tableHeader =>
    simp [renderNode] at h
    obtain ⟨rfl, -⟩ := h
    simpa [Shape.padPushing] using padPres_refl s
  | tableBody =>
    simp [renderNode] at h
    obtain ⟨rfl, -⟩ := h
    simpa [Shape.padPushing] using padPres_refl s
  | tableFooter =>
    simp [renderNode] at h
    obtain ⟨rfl, -⟩ := h
    simpa [Shape.padPushing] using padPres_refl s
  | tableRow =>
    simp only [renderNode] at h
    split at h
    · split at h
      · split at h
        · exact absurd h (by simp)
        · simp only [Option.some.injEq, Prod.mk.injEq] at h
          obtain ⟨rfl, -⟩ := h
          simpa [Shape.padPushing] using padPres_refl s
      · simp only [Option.some.injEq, Prod.mk.injEq] at h
        obtain ⟨rfl, -⟩ := h
        simpa [Shape.padPushing] using padPres_refl s
    · split at h
      · split at h
        · exact absurd h (by simp)
        · simp only [Option.some.injEq, Prod.mk.injEq] at h
          obtain ⟨rfl, -⟩ := h
          simpa [Shape.padPushing] using padPres_refl s
      · simp only [Option.some.injEq, Prod.mk.injEq] at h
        obtain ⟨rfl, -⟩ := h
        simpa [Shape.padPushing] using padPres_refl s
    · simp only [Option.some.injEq, Prod.mk.injEq] at h
      obtain ⟨rfl, -⟩ := h
      simpa [Shape.padPushing] using padPres_refl s


theorem renderNode_exit_pad (cl : Collab) (cfg : Cfg) (s : RState)
    (anc : List Shape) (idx : Nat) (next : Option Node)
    (parent : Option Shape) (sh : Shape) (children : Forest)
    (s3 : RState) (st : WStatus)
    (h : renderNode cl cfg s anc idx next parent sh children false =
      some (s3, st)) :
    if sh.padPushing then
      s.padAccumulator ≠ [] ∧
      s3.padAccumulator = s.padAccumulator.dropLast ∧
      s3.blockQuoteLevel = s.blockQuoteLevel -
        (if sh = Shape.blockQuote then 1 else 0) ∧
      s3.pushes = s.pushes ∧ s3.popsCount = s.popsCount + 1
    else padPres s s3 := by
  cases sh with
  | document =>
    simp [renderNode] at h
    obtain ⟨rfl, -⟩ := h
    simpa [Shape.padPushing] using padPres_refl s
  | blockQuote =>
    simp [renderNode, popPad] at h
    obtain ⟨a, hm, rfl, -⟩ := h
    split at hm
    · exact absurd hm (by simp)
    · rename_i heq
      simp only [Option.some.injEq] at hm
      subst hm
      simp [Shape.padPushing, heq]
  | list =>
    simp only [renderNode] at h
    split at h
    · simp at h
      obtain ⟨rfl, -⟩ := h
      simpa [Shape.padPushing] using padPres_refl s
    · split at h
      · simp at h
        obtain ⟨rfl, -⟩ := h
        simpa [Shape.padPushing] using padPres_refl s
      · split at h <;>
        · simp at h
          obtain ⟨rfl, -⟩ := h
          simpa [Shape.padPushing] using padPres_refl _
  | listItem flags =>
    cases flags with
    | mk o t d =>
      cases o <;> cases t <;> cases d <;>
        simp [renderNode, popPad] at h <;>
        first
          | (obtain ⟨rfl, -⟩ := h
             simpa [Shape.padPushing] using padPres_refl s)
          | (obtain ⟨a, hm, rfl, -⟩ := h
             split at hm
             · exact absurd hm (by simp)
             · rename_i heq
               simp only [Option.some.injEq] at hm
               subst hm
               simp [Shape.padPushing, heq])
  | paragraph =>
    simp only [renderNode] at h
    split at h
    · simp at h
      obtain ⟨rfl, -⟩ := h
      simpa [Shape.padPushing] using padPres_refl s
    · split at h <;> split at h <;>
      · simp at h
        obtain ⟨rfl, -⟩ := h
        simpa [Shape.padPushing] using padPres_refl _
  | heading level =>
    simp [renderNode] at h
    obtain ⟨rfl, -⟩ := h
    simpa [Shape.padPushing] using padPres_renderHeading cl cfg s level
  | horizontalRule =>
    simp [renderNode] at h
    obtain ⟨rfl, -⟩ := h
    simpa [Shape.padPushing] using padPres_renderHorizontalRule cfg s
  | emph =>
    simp [renderNode] at h
    obtain ⟨rfl, -⟩ := h
    simpa [Shape.padPushing] using padPres_refl s
  | strong =>
    simp [renderNode] at h
    obtain ⟨rfl, -⟩ := h
    simpa [Shape.padPushing] using padPres_refl s
  | del =>
    simp [renderNode] at h
    obtain ⟨rfl, -⟩ := h
    simpa [Shape.padPushing] using padPres_refl s
  | link dest title =>
    simp [renderNode] at h
    obtain ⟨rfl, -⟩ := h
    simpa [Shape.padPushing] using padPres_refl s
  | image dest =>
    simp [renderNode] at h
    obtain ⟨rfl, -⟩ := h
    simpa [Shape.padPushing] using padPres_refl s
  | text lit =>
    simp only [renderNode] at h
    split at h
    · simp at h
      obtain ⟨rfl, -⟩ := h
      simpa [Shape.padPushing] using padPres_refl s
    · split at h
      · exact absurd h (by simp)
      · simp at h
        obtain ⟨rfl, -⟩ := h
        simpa [Shape.padPushing] using padPres_refl s
  | htmlBlock lit =>
    simp [renderNode] at h
    obtain ⟨rfl, -⟩ := h
    simpa [Shape.padPushing] using padPres_renderHTMLBlock cl cfg s lit
  | codeBlock lit =>
    simp [renderNode] at h
    obtain ⟨rfl, -⟩ := h
    simpa [Shape.padPushing] using
      padPres_renderFormattedCodeBlock cl cfg s lit
  | softbreak =>
    simp [renderNode] at h
    obtain ⟨rfl, -⟩ := h
    simpa [Shape.padPushing] using padPres_refl s
  | hardbreak =>
    simp [renderNode] at h
    obtain ⟨rfl, -⟩ := h
    simpa [Shape.padPushing] using padPres_refl s
  | code lit =>
    simp [renderNode] at h
    obtain ⟨rfl, -⟩ := h
    simpa [Shape.padPushing] using padPres_refl s
  | htmlSpan lit =>
    simp [renderNode] at h
    obtain ⟨rfl, -⟩ := h
    simpa [Shape.padPushing] using padPres_refl s
  | table =>
    simp only [renderNode] at h
    split at h
    · simp at h
      obtain ⟨rfl, -⟩ := h
      simpa [Shape.padPushing] using padPres_refl s
    · split at h
      · exact absurd h (by simp)
      · simp at h
        obtain ⟨rfl, -⟩ := h
        simpa [Shape.padPushing] using padPres_refl _
  | tableCell isHeader align =>
    simp only [renderNode] at h
    split at h
    · simp at h
      obtain ⟨rfl, -⟩ := h
      simpa [Shape.padPushing] using padPres_refl s
    · split at h
      · exact absurd h (by simp)
      · split at h <;>
        · simp at h
          obtain ⟨rfl, -⟩ := h
          simpa [Shape.padPushing] using padPres_refl _
  | tableHeader =>
    simp [renderNode] at h
    obtain ⟨rfl, -⟩ := h
    simpa [Shape.padPushing] using padPres_refl s
  | tableBody =>
    simp [renderNode] at h
    obtain ⟨rfl, -⟩ := h
    simpa [Shape.padPushing] using padPres_refl s
  | tableFooter =>
    simp [renderNode] at h
    obtain ⟨rfl, -⟩ := h
    simpa [Shape.padPushing] using padPres_refl s
  | tableRow =>
    simp only [renderNode] at h
    split at h
    · split at h
      · split at h
        · exact absurd h (by simp)
        · simp at h
          obtain ⟨rfl, -⟩ := h
          simpa [Shape.padPushing] using padPres_refl s
      · simp at h
        obtain ⟨rfl, -⟩ := h
        simpa [Shape.padPushing] using padPres_refl s
    · split at h
      · split at h
        · exact absurd h (by simp)
        · simp at h
          obtain ⟨rfl, -⟩ := h
          simpa [Shape.padPushing] using padPres_refl s
      · simp at h
        obtain ⟨rfl, -⟩ := h
        simpa [Shape.padPushing] using padPres_refl s
    · simp at h
      obtain ⟨rfl, -⟩ := h
      simpa [Shape.padPushing] using padPres_refl s

theorem padPushing_isContainer (sh : Shape)
    (h : sh.padPushing = true) : sh.isContainer = true := by
  cases sh <;> simp_all [Shape.padPushing, Shape.isContainer]

mutual
theorem walkNode_balanced (cl : Collab) (cfg : Cfg) (anc : List Shape)
    (idx : Nat) (next : Option Node) (parent : Option Shape) (s : RState)
    (n : Node) (s' : RState)
    (h : walkNode cl cfg anc idx next parent s n = some s') :
    padPres s s' := by
  cases n with
  | node sh children =>
    simp only [walkNode] at h
    split at h
    · exact absurd h (by simp)
    · rename_i s1 st hren
      split at h
      · rename_i hcont
        split at h
        · exact absurd h (by simp)
        · rename_i s2 hmid
          split at h
          · exact absurd h (by simp)
          · rename_i s3 st2 hexit
            simp only [Option.some.injEq] at h
            subst h
            have hmid' : padPres s1 s2 := by
              by_cases hst : st = WStatus.skipChildren
              · rw [if_pos hst] at hmid
                simp only [Option.some.injEq] at hmid
                subst hmid
                exact padPres_refl _
              · rw [if_neg hst] at hmid
                exact walkForest_balanced cl cfg (sh :: anc) 0 (some sh)
                  s1 children s2 hmid
            have He := renderNode_enter_pad cl cfg s anc idx next parent sh
              children s1 st hren
            have Hx := renderNode_exit_pad cl cfg s2 anc idx next parent sh
              children s3 st2 hexit
            by_cases hp : sh.padPushing
            · rw [if_pos hp] at He Hx
              obtain ⟨⟨p, hpad1⟩, hbq1, hpush1, hpop1⟩ := He
              obtain ⟨-, hpad3, hbq3, hpush3, hpop3⟩ := Hx
              obtain ⟨mpad, mbq, mghost⟩ := hmid'
              refine ⟨?_, ?_, ?_⟩
              · rw [hpad3, mpad, hpad1]
                simp
              · rw [hbq3, mbq, hbq1]
                omega
              · omega
            · rw [if_neg hp] at He Hx
              exact padPres_trans (padPres_trans He hmid') Hx
      · rename_i hcont
        simp only [Option.some.injEq] at h
        subst h
        have He := renderNode_enter_pad cl cfg s anc idx next parent sh
          children s1 st hren
        have hp : ¬sh.padPushing = true := fun hpp =>
          hcont (padPushing_isContainer sh hpp)
        rw [if_neg hp] at He
        exact He

theorem walkForest_balanced (cl : Collab) (cfg : Cfg) (anc : List Shape)
    (idx : Nat) (parent : Option Shape) (s : RState) (f : Forest)
    (s' : RState)
    (h : walkForest cl cfg anc idx parent s f = some s') :
    padPres s s' := by
  cases f with
  | nil =>
    simp only [walkForest, Option.some.injEq] at h
    subst h
    exact padPres_refl s
  | cons nd tl =>
    simp only [walkForest] at h
    split at h
    · exact absurd h (by simp)
    · rename_i s1 hstep
      exact padPres_trans
        (walkNode_balanced cl cfg anc idx tl.head? parent s nd s1 hstep)
        (walkForest_balanced cl cfg anc (idx + 1) parent s1 tl s' h)
end

/-- Claim C3: a render starts with an empty padding stack, zero
blockquote depth and equal (zero) push/pop counts, and whenever the
walk of a document completes, the padding stack is empty again, the
blockquote depth is back to zero, and the number of `addPad` pushes
equals the number of `popPad` pops. -/
theorem c3_pad_stack_balance :
    initState.padAccumulator = [] ∧ initState.blockQuoteLevel = 0 ∧
    initState.pushes = 0 ∧ initState.popsCount = 0 ∧
    (∀ cl cfg doc s', render cl cfg doc = some s' →
      s'.padAccumulator = [] ∧ s'.blockQuoteLevel = 0 ∧
      s'.pushes = s'.popsCount) := by
  refine ⟨rfl, rfl, rfl, rfl, ?_⟩
  intro cl cfg doc s' h
  obtain ⟨hpad, hbq, hghost⟩ :=
    walkNode_balanced cl cfg [] 0 none none initState doc s' h
  refine ⟨by simpa [initState] using hpad, by simpa [initState] using hbq,
    ?_⟩
  have h1 : initState.pushes = 0 := rfl
  have h2 : initState.popsCount = 0 := rfl
  omega

set_option maxHeartbeats 1000000 in
/-- Claim C3 witness: the concrete document `demoDoc` (a blockquote
holding a paragraph) renders to `c3DemoFinal`, whose padding stack is
empty, blockquote depth zero, and push count equal to pop count. -/
theorem c3_witness :
    render demoCollab demoCfg demoDoc = some c3DemoFinal ∧
    c3DemoFinal.padAccumulator = [] ∧ c3DemoFinal.blockQuoteLevel = 0 ∧
    c3DemoFinal.pushes = c3DemoFinal.popsCount :=
  ⟨by decide,
    c3_pad_stack_balance.2.2.2.2 demoCollab demoCfg demoDoc c3DemoFinal
      (by decide)⟩

end TermMarkdown
